import Mathlib

/-!
# Verification of the astrobase ACF period-finding core

Shallow embedding of the autocorrelation-and-period-extraction pipeline of
`src/astrobase/varbase/autocorr.py` and `src/astrobase/periodbase/macf.py`.

Real values are modelled as exact rationals (`ℚ`).  The gap-filling stage
(`fill_magseries_gaps` in `astrobase.lcmath`) is the spec's external
Resampler collaborator (spec section 2) and is therefore an *input* of the
embedded pipeline (a `GapFilled` record), not re-implemented here.
Operations that can raise a Python exception are modelled in
`Except String`; the embedded error strings name the Python exception that
the corresponding operation raises.
-/

namespace Astrobase

/-- A gap-filled, uniform-cadence series: the output contract of the external
resampler `fill_magseries_gaps` (spec section 2 and 6): times, values, and the
cadence scalar. -/
structure GapFilled where
  itimes : List ℚ
  imags : List ℚ
  cadence : ℚ
deriving DecidableEq, Inhabited

/-- `np.max` of a one-dimensional array, by a left fold.  `numpy` raises on an
empty array; the embedding returns `0` there and no claim relies on that
corner. -/
def npmaxL : List ℚ → ℚ
  | [] => 0
  | x :: xs => xs.foldl max x

/-- `np.min` of a one-dimensional array (empty corner as in `npmaxL`). -/
def npminL : List ℚ → ℚ
  | [] => 0
  | x :: xs => xs.foldl min x

/-- Insert into a sorted list (helper for the median). -/
def insSorted (x : ℚ) : List ℚ → List ℚ
  | [] => [x]
  | y :: ys => if x ≤ y then x :: y :: ys else y :: insSorted x ys

/-- `np.median`: middle order statistic, or the average of the two middle
order statistics for even length (empty corner unused). -/
def npmedian (l : List ℚ) : ℚ :=
  let s := l.foldr insSorted []
  if l.length % 2 = 1 then s.getD (l.length / 2) 0
  else (s.getD (l.length / 2 - 1) 0 + s.getD (l.length / 2) 0) / 2

/-- The lag-`k` raw autocorrelation sum `Σ_i a[i] * a[i+k]` (the entries of
`np.correlate(a, a)`). -/
def rlag (a : List ℚ) (k : ℕ) : ℚ := (a.zipWith (· * ·) (a.drop k)).sum

/-- `np.correlate(a, a, mode='full')`: the double-sided correlation, of size
`2*n - 1`; the entry at position `j` is the lag-`(j - (n-1))` sum, and since
self-correlation is symmetric it equals `rlag a |j - (n-1)|`.  The absolute
difference is written as the sum of the two truncated natural
subtractions. -/
def corrFull (a : List ℚ) : List ℚ :=
  (List.range (2 * a.length - 1)).map
    (fun j => rlag a ((j - (a.length - 1)) + ((a.length - 1) - j)))

/-- `_autocorr_func3` (src/astrobase/varbase/autocorr.py, lines 82-97): full
double-sided self-correlation, divided elementwise by its maximum, keeping
the half starting at the centre `int(result.size / 2)`.  The `lag`, `maglen`,
`magmed` and `magstd` arguments are accepted and ignored exactly as in the
source. -/
def _autocorr_func3 (mags : List ℚ) (lag maglen : ℕ) (magmed magstd : ℚ) :
    List ℚ :=
  let result := corrFull mags
  let result2 := result.map (· / npmaxL result)
  result2.drop (result2.length / 2)

/-- The dictionary returned by `autocorr_magseries`: the gap-filled series it
was handed, updated with the `minitime`, `lags` and `acf` entries (lines
156-158 of autocorr.py).  The `cadence` entry is supplied by the external
gap filler and is carried through. -/
structure AcfResult where
  itimes : List ℚ
  imags : List ℚ
  cadence : ℚ
  minitime : ℚ
  lags : List ℕ
  acf : List ℚ
deriving DecidableEq, Inhabited

/-- `autocorr_magseries` (src/astrobase/varbase/autocorr.py, lines 101-160)
specialised to the default estimator `func = _autocorr_func3` (the spec's
single supported Correlator, section 4.1).  The gap-filled input `g` stands
for the successful result of the external `fill_magseries_gaps` stage;
the resampler-only parameters (`fillgaps`, `forcetimebin`, `sigclip`,
`magsarefluxes`, `filterwindow`, `verbose`) are consumed by that stage alone
and do not appear.  `maxlags : Option ℕ` models the Python `maxlags`
argument, with `if maxlags:` truthiness (`none` and `some 0` are falsy).
`lags[0]` is read with a default of `0`: `numpy` would raise only in the
degenerate corner of an empty lag array, which no claim touches. -/
def autocorr_magseries (g : GapFilled) (maxlags : Option ℕ) : AcfResult :=
  let lags : List ℕ :=
    match maxlags with
    | some l => if 0 < l then List.range l else List.range g.itimes.length
    | none => List.range g.itimes.length
  let series_stdev : ℚ := (1483 / 1000) * npmedian (g.imags.map (fun v => |v|))
  let autocorr := _autocorr_func3 g.imags (lags.getD 0 0) g.imags.length 0
    series_stdev
  { itimes := g.itimes, imags := g.imags, cadence := g.cadence,
    minitime := npminL g.itimes, lags := lags, acf := autocorr }

/-- Scalar array indexing `arr[i]`: raises `IndexError` when out of range. -/
def npGet {α : Type} (arr : List α) (i : ℕ) : Except String α :=
  match arr.get? i with
  | some v => Except.ok v
  | none => Except.error "IndexError: index out of bounds"

/-- Fancy indexing `arr[inds]`: raises `IndexError` when any index is out of
range (checked left to right). -/
def npFancy {α : Type} (arr : List α) : List ℕ → Except String (List α)
  | [] => Except.ok []
  | i :: is => do
    let v ← npGet arr i
    let vs ← npFancy arr is
    Except.ok (v :: vs)

/-- `arr[-1]` of a selection: the last element, `IndexError` when empty. -/
def npLast {α : Type} (l : List α) : Except String α :=
  match l.getLast? with
  | some v => Except.ok v
  | none => Except.error "IndexError: index out of bounds"

/-- `arr[0]` of a selection: the first element, `IndexError` when empty. -/
def npHead {α : Type} (l : List α) : Except String α :=
  match l.head? with
  | some v => Except.ok v
  | none => Except.error "IndexError: index out of bounds"

/-- `scipy.signal.argrelmax` / `argrelmin` via `_boolrelextrema` with the
default `mode='clip'`: index `i` qualifies when `cmp data[i] data[i ± j]`
holds for every shift `1 ≤ j ≤ order`, out-of-range neighbour positions being
clipped to the array edges (so a boundary sample is compared against itself
and never qualifies under a strict comparator).  The left clip to `0` is the
truncated natural subtraction; the right clip is `min _ (n-1)`. -/
def argrelextrema (data : List ℚ) (cmp : ℚ → ℚ → Bool) (order : ℕ) :
    List ℕ :=
  (List.range data.length).filter (fun i =>
    (List.range order).all (fun j =>
      cmp (data.getD i 0) (data.getD (min (i + (j + 1)) (data.length - 1)) 0)
        &&
      cmp (data.getD i 0) (data.getD (i - (j + 1)) 0)))

/-- The dictionary returned by `_get_acf_peakheights` (macf.py lines
177-188). -/
structure PeakRes where
  maxinds : List ℕ
  maxacfs : List ℚ
  maxlags : List ℕ
  mininds : List ℕ
  minacfs : List ℚ
  minlags : List ℕ
  relpeakheights : List ℚ
  relpeaklags : List ℕ
  peakindices : List ℕ
  bestlag : ℕ
  bestpeakheight : ℚ
  bestpeakindex : ℕ
deriving DecidableEq, Inhabited

/-- The loop body of `_get_acf_peakheights` (macf.py lines 157-165): for each
of the first `npeaks` maxima in lag order, the nearest minimum index strictly
to the left (`mininds[mininds < mxi][-1]`, `IndexError` when none) and
strictly to the right (`mininds[mininds > mxi][0]`), and the relative peak
height `acf[mxi] - (acf[leftmin] + acf[rightmin])/2`. -/
def peakHeightsLoop (acf : List ℚ) (mininds : List ℕ) :
    List ℕ → Except String (List ℚ)
  | [] => Except.ok []
  | mxi :: rest => do
    let leftminind ← npLast (mininds.filter (fun i => decide (i < mxi)))
    let rightminind ← npHead (mininds.filter (fun i => decide (mxi < i)))
    let hts ← peakHeightsLoop acf mininds rest
    Except.ok ((acf.getD mxi 0 -
      (acf.getD leftminind 0 + acf.getD rightminind 0) / 2) :: hts)

/-- `_get_acf_peakheights` (src/astrobase/periodbase/macf.py, lines 135-188).
`scipy` validates the extremum search `order` (`ValueError` when below `1`);
the `relpeakheights`, `relpeaklags` and `peakindices` arrays are
zero-initialised with `npeaks` entries and the loop fills the positions
below `min npeaks (number of maxima)`; the in-range scalar reads inside the
loop and in the best-peak selection use `getD` where success of an earlier
step already bounds the index. -/
def _get_acf_peakheights (lags : List ℕ) (acf : List ℚ) (npeaks : ℕ)
    (searchinterval : ℤ) : Except String PeakRes :=
  if searchinterval < 1 then
    Except.error "ValueError: Order must be an int >= 1"
  else do
    let ord := searchinterval.toNat
    let maxinds := argrelextrema acf (fun a b => decide (b < a)) ord
    let maxacfs ← npFancy acf maxinds
    let maxlagsv ← npFancy lags maxinds
    let mininds := argrelextrema acf (fun a b => decide (a < b)) ord
    let minacfs ← npFancy acf mininds
    let minlagsv ← npFancy lags mininds
    let hts ← peakHeightsLoop acf mininds (maxinds.take npeaks)
    let relpeakheights := hts ++ List.replicate (npeaks - hts.length) 0
    let relpeaklags := (maxinds.take npeaks).map (fun mxi => lags.getD mxi 0)
      ++ List.replicate (npeaks - (maxinds.take npeaks).length) 0
    let peakindices := (List.range npeaks).map
      (fun p => if p < (maxinds.take npeaks).length then p else 0)
    let h0 ← npGet relpeakheights 0
    let h1 ← npGet relpeakheights 1
    if h1 < h0 then
      Except.ok
        { maxinds := maxinds, maxacfs := maxacfs, maxlags := maxlagsv,
          mininds := mininds, minacfs := minacfs, minlags := minlagsv,
          relpeakheights := relpeakheights, relpeaklags := relpeaklags,
          peakindices := peakindices,
          bestlag := relpeaklags.getD 0 0, bestpeakheight := h0,
          bestpeakindex := peakindices.getD 0 0 }
    else
      Except.ok
        { maxinds := maxinds, maxacfs := maxacfs, maxlags := maxlagsv,
          mininds := mininds, minacfs := minacfs, minlags := minlagsv,
          relpeakheights := relpeakheights, relpeaklags := relpeaklags,
          peakindices := peakindices,
          bestlag := relpeaklags.getD 1 0, bestpeakheight := h1,
          bestpeakindex := peakindices.getD 1 0 }

/-- Symbolic representation of `np.sqrt q` for a nonnegative radicand: exact
square roots of rationals are irrational in general, so the reported value is
carried by its radicand (`np.sqrt` applied to `radicand`). -/
structure SqrtVal where
  radicand : ℚ
deriving DecidableEq, Inhabited

/-- A 2 by 2 covariance matrix of a degree-1 fit. -/
structure Cov2 where
  c00 : ℚ
  c01 : ℚ
  c10 : ℚ
  c11 : ℚ
deriving DecidableEq, Inhabited

/-- Result of `np.polyfit(x, y, 1, cov=True)`: coefficients (highest degree
first: slope then intercept) and covariance matrix. -/
structure Polyfit1 where
  slope : ℚ
  intercept : ℚ
  cov : Cov2
deriving DecidableEq, Inhabited

/-- `np.polyfit(x, y, 1, cov=True)`.  With `cov=True`, `numpy` requires
`len(x) > order + 2`, i.e. at least 4 points, raising `ValueError` otherwise;
an exactly singular normal matrix raises `LinAlgError` from the inverse.  On
success the least-squares line is the exact normal-equation solution, and the
covariance matrix is `inv(X^T X) * resids / (len(x) - order - 2)` where
`resids` is the residual sum of squares (numpy's internal column rescaling
cancels out exactly). -/
def polyfitDeg1Cov (x y : List ℚ) : Except String Polyfit1 :=
  if x.length ≤ 3 then
    Except.error "ValueError: the number of data points must exceed order + 2 for Bayesian estimate the covariance matrix"
  else
    let m : ℚ := x.length
    let sx := x.sum
    let sy := y.sum
    let sxx := (x.map (fun v => v * v)).sum
    let sxy := (x.zipWith (· * ·) y).sum
    let det := m * sxx - sx * sx
    if det = 0 then Except.error "LinAlgError: Singular matrix"
    else
      let a := (m * sxy - sx * sy) / det
      let b := (sxx * sy - sx * sxy) / det
      let rss := (x.zipWith (fun xi yi =>
        (yi - (a * xi + b)) * (yi - (a * xi + b))) y).sum
      let fac := rss / (m - 3)
      Except.ok
        { slope := a, intercept := b,
          cov := { c00 := m * fac / det, c01 := -sx * fac / det,
                   c10 := -sx * fac / det, c11 := sxx * fac / det } }

/-- `d.update({k: v})` on a Python dict modelled as an association list with
unique keys: overwrite the existing entry in place (keeping its position),
else append (dicts preserve insertion order). -/
def dictUpdate (d : List (String × ℤ)) (k : String) (v : ℤ) :
    List (String × ℤ) :=
  match d with
  | [] => [(k, v)]
  | p :: rest => if p.1 = k then (k, v) :: rest else p :: dictUpdate rest k v

/-- Key lookup in a Python dict modelled as an association list. -/
def dictLookup (k : String) : List (String × ℤ) → Option ℤ
  | [] => none
  | p :: d => if p.1 = k then some p.2 else dictLookup k d

/-- The `kwargs` echo inside the result dict (macf.py lines 307-314),
restricted to the parameters the embedded core models; the resampler-only
parameters (`fillgaps`, `filterwindow`, `magsarefluxes`, `sigclip`) belong to
the external gap-filling collaborator and carry no information for the
claims. -/
structure KwargsEcho where
  maxlags : Option ℕ
  maxacfpeaks : ℕ
  smoothacf : Option ℤ
  smoothfunckwargs : List (String × ℤ)
deriving DecidableEq, Inhabited

/-- The result dictionary of `macf_period_find` (macf.py lines 294-316), one
field per dict key. -/
structure MacfResult where
  bestperiod : ℚ
  bestlspval : ℚ
  nbestpeaks : ℕ
  lspvals : List ℚ
  periods : List ℚ
  acf : List ℚ
  lags : List ℕ
  method : String
  naivebestperiod : ℚ
  fitbestperiod : ℚ
  fitperiodrms : SqrtVal
  periodfitcoeffs : ℚ × ℚ
  periodfitcovar : Cov2
  kwargs : KwargsEcho
  acfresults : AcfResult
  acfpeaks : PeakRes
deriving DecidableEq, Inhabited

/-- The exact key set of the dict literal returned by `macf_period_find`
(macf.py lines 294-316). -/
def macfResultKeys : List String :=
  ["bestperiod", "bestlspval", "nbestpeaks", "lspvals", "periods", "acf",
   "lags", "method", "naivebestperiod", "fitbestperiod", "fitperiodrms",
   "periodfitcoeffs", "periodfitcovar", "kwargs", "acfresults", "acfpeaks"]

/-- Observable outcome of one `macf_period_find` call: the returned record,
whether the alias LOGWARNING at macf.py lines 283-286 fired, and the
post-call state of the caller's `smoothfunckwargs` dict (which the source
mutates in place via `smoothfunckwargs.update`). -/
structure MacfOut where
  res : MacfResult
  warnedAlias : Bool
  kwargsAfter : List (String × ℤ)
deriving DecidableEq, Inhabited

/-- `macf_period_find` (src/astrobase/periodbase/macf.py, lines 195-316).
The gap-filled series `g` stands for the successful external resampling
stage inside `autocorr_magseries`; `smoothfunc` is the smoothing-strategy
argument of the source (default `_smooth_acf_savgol`), taken as an opaque
function exactly as the source takes it.  Notable modelled behaviours:
`smoothacf = None` reaches `searchinterval=int(smoothacf/2)` and raises
`TypeError`; `int(s/2)` on an integer `s` is truncation toward zero
(`Int.tdiv`); a failing `np.polyfit` is caught, a warning is logged, the NaN
fallback assignments are executed (dead stores) and the bare `raise` then
re-raises the caught exception out of the function; on the success path the
fitted period is an exact rational so the `np.isfinite` guard holds and the
naive-period fallback branch is unreachable. -/
def macf_period_find (g : GapFilled) (maxlags : Option ℕ) (maxacfpeaks : ℕ)
    (smoothacf : Option ℤ)
    (smoothfunc : List ℚ → List (String × ℤ) → List ℚ)
    (smoothfunckwargs : List (String × ℤ)) : Except String MacfOut :=
  let acfres := autocorr_magseries g maxlags
  let xlags := acfres.lags
  match smoothacf with
  | none =>
    Except.error
      "TypeError: unsupported operand type(s) for /: 'NoneType' and 'int'"
  | some s =>
    let kwargs2 :=
      if 0 < s then dictUpdate smoothfunckwargs "windowsize" s
      else smoothfunckwargs
    let xacf := if 0 < s then smoothfunc acfres.acf kwargs2 else acfres.acf
    match _get_acf_peakheights xlags xacf maxacfpeaks (s.tdiv 2) with
    | Except.error e => Except.error e
    | Except.ok peakres =>
      let bestlspval := peakres.bestpeakheight
      let fity := ((0 : ℚ) :: ((peakres.bestlag : ℕ) : ℚ) ::
        ((peakres.relpeaklags.filter
          (fun l => decide (peakres.bestlag < l))).map
            (fun l => ((l : ℕ) : ℚ)))).map (fun v => v * acfres.cadence)
      let fitx := (List.range fity.length).map (fun i => ((i : ℕ) : ℚ))
      match polyfitDeg1Cov fitx fity with
      | Except.error e => Except.error e
      | Except.ok pf =>
        let fitbestperiod := pf.slope
        let bestperiodrms : SqrtVal := { radicand := pf.cov.c00 }
        let naivebestperiod := ((peakres.bestlag : ℕ) : ℚ) * acfres.cadence
        let warned := decide (fitbestperiod < naivebestperiod)
        let bestperiod := fitbestperiod
        Except.ok
          { res :=
            { bestperiod := bestperiod, bestlspval := bestlspval,
              nbestpeaks := maxacfpeaks, lspvals := xacf,
              periods := xlags.map (fun l => ((l : ℕ) : ℚ) * acfres.cadence),
              acf := xacf, lags := xlags, method := "acf",
              naivebestperiod := naivebestperiod,
              fitbestperiod := fitbestperiod,
              fitperiodrms := bestperiodrms,
              periodfitcoeffs := (pf.slope, pf.intercept),
              periodfitcovar := pf.cov,
              kwargs :=
                { maxlags := maxlags, maxacfpeaks := maxacfpeaks,
                  smoothacf := smoothacf, smoothfunckwargs := kwargs2 },
              acfresults := acfres, acfpeaks := peakres },
            warnedAlias := warned,
            kwargsAfter := kwargs2 }

/-- The Period Refiner's fit sample times as the spec words them (section
4.4): "(index 0, time 0), (index 1, time = bestLag × cadence), then every
subsequent collected maximum's lag (in increasing order) whose lag exceeds
the best lag, each multiplied by cadence".  Stated over the peak set's
retained peak-lag array; this definition follows the spec's words and is
compared against the code's construction. -/
def specFitSampleTimes (bestlag : ℕ) (peaklags : List ℕ) (cadence : ℚ) :
    List ℚ :=
  0 :: (((bestlag : ℕ) : ℚ) * cadence) ::
    ((peaklags.filter (fun l => decide (bestlag < l))).map
      (fun l => ((l : ℕ) : ℚ) * cadence))

/-- Decidable equality for `Except` results (elementwise). -/
instance {ε α : Type} [DecidableEq ε] [DecidableEq α] :
    DecidableEq (Except ε α) := fun a b =>
  match a, b with
  | Except.error e, Except.error f =>
    if h : e = f then isTrue (by rw [h]) else isFalse (by simp [h])
  | Except.ok x, Except.ok y =>
    if h : x = y then isTrue (by rw [h]) else isFalse (by simp [h])
  | Except.error _, Except.ok _ => isFalse (by simp)
  | Except.ok _, Except.error _ => isFalse (by simp)

/-! ## Concrete inputs used by the closed theorems and witnesses -/

/-- A gap-filled series whose ACF is monotone decreasing, so the extremum
search finds no peaks and the refinement fit receives only the two samples
`[0, 0]`. -/
def gMono : GapFilled := ⟨[0, 1, 2, 3], [4, 3, 2, 1], 1⟩

/-- An identity smoothing strategy (the source's `smoothfunc` parameter is an
arbitrary function argument). -/
def idSmooth : List ℚ → List (String × ℤ) → List ℚ := fun a _ => a

/-- An 11-point gap-filled series (unit cadence). -/
def gOsc : GapFilled :=
  ⟨(List.range 11).map (fun i => (i : ℚ)), 1 :: List.replicate 10 0, 1⟩

/-- A smoothing strategy producing a fixed oscillating ACF with four maxima
(at indices 2, 4, 6, 8) whose first two relative heights tie, so the second
peak is selected. -/
def oscSmooth : List ℚ → List (String × ℤ) → List ℚ :=
  fun _ _ => [9, 1, 5, 1, 5, 1, 5, 1, 5, 1, 5]

/-- The successful pipeline outcome on `gOsc` with `oscSmooth` and
`smoothacf = 2`, extracted from the call for use in closed witness
statements. -/
def wOsc : MacfOut :=
  (macf_period_find gOsc none 10 (some 2) oscSmooth []).toOption.getD default

/-! ## Claim theorems -/

/-- Claim C1 (code bug): when the least-squares fit cannot be solved (here a
monotone ACF yields no peaks, so the fit sample set is the two points
`[0, 0]`, below the four points `np.polyfit(..., cov=True)` requires),
`macf_period_find` does not return the degraded NaN/naive-period result the
spec mandates: the bare `raise` at macf.py line 278 re-raises the caught
exception (making the NaN fallback assignments before it dead stores), and
the whole call aborts with the fit error. -/
theorem macf_fit_failure_raises :
    macf_period_find gMono none 10 (some 21) idSmooth [] =
      Except.error "ValueError: the number of data points must exceed order + 2 for Bayesian estimate the covariance matrix" := by
  with_unfolding_all decide

/-- Claim C3 (code bug): selecting the disabled smoothing strategy
(`smoothacf = None`) does not run the pipeline on the unsmoothed ACF: the
call aborts with `TypeError` when `searchinterval=int(smoothacf/2)`
(macf.py line 247) divides `None` by an integer, even though the
smoothing-disabled branch at lines 240-242 exists exactly for this case. -/
theorem macf_smoothacf_none_typeerror :
    macf_period_find gMono none 10 none idSmooth [] =
      Except.error
        "TypeError: unsupported operand type(s) for /: 'NoneType' and 'int'" := by
  with_unfolding_all decide

/-- Claim C2 counterexample: a successful pipeline run whose returned record
key set (the dict literal of macf.py lines 294-316) contains no
`aliasSuspected` entry, refuting the claimed aliasSuspected field. -/
theorem macf_no_alias_field_cex :
    "aliasSuspected" ∉ macfResultKeys ∧
      (macf_period_find gOsc none 10 (some 2) oscSmooth []).isOk = true := by
  exact ⟨by decide, by with_unfolding_all decide⟩

/-- Claim C9 counterexample: a pipeline invocation handed an empty
`smoothfunckwargs` dict leaves it holding a `windowsize` entry afterwards
(the in-place `smoothfunckwargs.update` at macf.py line 237), refuting the
claim that arguments are left unchanged. -/
theorem macf_mutates_kwargs_cex :
    (macf_period_find gOsc none 10 (some 2) oscSmooth []).toOption.map
        (fun o => o.kwargsAfter) = some [("windowsize", 2)] ∧
      ([("windowsize", 2)] : List (String × ℤ)) ≠ [] := by
  exact ⟨by with_unfolding_all decide, by decide⟩

/-- Updating one key leaves lookups of every other key unchanged. -/
theorem dictLookup_dictUpdate_ne (d : List (String × ℤ)) (key k : String)
    (v : ℤ) (hk : k ≠ key) :
    dictLookup k (dictUpdate d key v) = dictLookup k d := by
  induction d with
  | nil => simp [dictUpdate, dictLookup, Ne.symm hk]
  | cons p rest ih =>
    by_cases hp : p.1 = key
    · simp [dictUpdate, dictLookup, hp, Ne.symm hk]
    · simp [dictUpdate, dictLookup, hp, ih]

/-- Inversion of a successful `macf_period_find` call: the post-call kwargs
state, the alias-warning condition, and the reported fit quantities as the
least-squares output over the code's fit sample set.  Shared helper for the
claims about the orchestrator. -/
theorem macf_ok_shape (g : GapFilled) (ml : Option ℕ) (npk : ℕ) (s : ℤ)
    (sf : List ℚ → List (String × ℤ) → List ℚ) (kw : List (String × ℤ))
    (o : MacfOut)
    (h : macf_period_find g ml npk (some s) sf kw = Except.ok o) :
    o.kwargsAfter = (if 0 < s then dictUpdate kw "windowsize" s else kw) ∧
    o.warnedAlias = decide (o.res.fitbestperiod < o.res.naivebestperiod) ∧
    o.res.fitbestperiod = o.res.periodfitcoeffs.1 ∧
    polyfitDeg1Cov
        ((List.range (((0 : ℚ) :: ((o.res.acfpeaks.bestlag : ℕ) : ℚ) ::
          ((o.res.acfpeaks.relpeaklags.filter
            (fun l => decide (o.res.acfpeaks.bestlag < l))).map
              (fun l => ((l : ℕ) : ℚ)))).map
                (fun v => v * o.res.acfresults.cadence)).length).map
          (fun i => ((i : ℕ) : ℚ)))
        (((0 : ℚ) :: ((o.res.acfpeaks.bestlag : ℕ) : ℚ) ::
          ((o.res.acfpeaks.relpeaklags.filter
            (fun l => decide (o.res.acfpeaks.bestlag < l))).map
              (fun l => ((l : ℕ) : ℚ)))).map
                (fun v => v * o.res.acfresults.cadence)) =
      Except.ok
        { slope := o.res.fitbestperiod,
          intercept := o.res.periodfitcoeffs.2,
          cov := o.res.periodfitcovar } ∧
    o.res.fitperiodrms.radicand = o.res.periodfitcovar.c00 := by
  simp only [macf_period_find] at h
  split at h
  · exact Except.noConfusion h
  · split at h
    · exact Except.noConfusion h
    · rw [Except.ok.injEq] at h
      subst h
      refine ⟨rfl, rfl, rfl, ?_, rfl⟩
      assumption

/-- Claim C2 (amended): every successful pipeline run returns a record with
no `aliasSuspected` field at all; the alias condition (fitted period below
naive period) is observable only as the logged warning, which fires exactly
when `fitbestperiod < naivebestperiod`. -/
theorem macf_alias_warning_only (g : GapFilled) (ml : Option ℕ) (npk : ℕ)
    (sacf : Option ℤ) (sf : List ℚ → List (String × ℤ) → List ℚ)
    (kw : List (String × ℤ)) (o : MacfOut)
    (h : macf_period_find g ml npk sacf sf kw = Except.ok o) :
    "aliasSuspected" ∉ macfResultKeys ∧
      o.warnedAlias = decide (o.res.fitbestperiod < o.res.naivebestperiod) := by
  refine ⟨by decide, ?_⟩
  cases sacf with
  | none => simp [macf_period_find] at h
  | some s => exact (macf_ok_shape g ml npk s sf kw o h).2.1

set_option maxRecDepth 100000 in
/-- Witness for `macf_alias_warning_only`: a concrete successful run. -/
theorem macf_alias_warning_only_witness :
    macf_period_find gOsc none 10 (some 2) oscSmooth [] = Except.ok wOsc ∧
      ("aliasSuspected" ∉ macfResultKeys ∧
        wOsc.warnedAlias =
          decide (wOsc.res.fitbestperiod < wOsc.res.naivebestperiod)) :=
  ⟨by with_unfolding_all decide,
    macf_alias_warning_only gOsc none 10 (some 2) oscSmooth [] wOsc
      (by with_unfolding_all decide)⟩

/-- Claim C9 (amended): the only argument mutation a `macf_period_find` call
performs is writing the `windowsize` key of the caller's `smoothfunckwargs`
dict (when smoothing is enabled); every other key of that dict reads the
same after the call, and no other cross-invocation state exists. -/
theorem macf_kwargs_frame (g : GapFilled) (ml : Option ℕ) (npk : ℕ)
    (sacf : Option ℤ) (sf : List ℚ → List (String × ℤ) → List ℚ)
    (kw : List (String × ℤ)) (o : MacfOut)
    (h : macf_period_find g ml npk sacf sf kw = Except.ok o)
    (k : String) (hk : k ≠ "windowsize") :
    dictLookup k o.kwargsAfter = dictLookup k kw := by
  cases sacf with
  | none => simp [macf_period_find] at h
  | some s =>
    rw [(macf_ok_shape g ml npk s sf kw o h).1]
    by_cases h0 : 0 < s
    · rw [if_pos h0, dictLookup_dictUpdate_ne _ _ _ _ hk]
    · rw [if_neg h0]

set_option maxRecDepth 100000 in
/-- Witness for `macf_kwargs_frame`: a concrete successful run and a key
other than `windowsize`. -/
theorem macf_kwargs_frame_witness :
    macf_period_find gOsc none 10 (some 2) oscSmooth [] = Except.ok wOsc ∧
      "polyorder" ≠ "windowsize" ∧
      dictLookup "polyorder" wOsc.kwargsAfter = dictLookup "polyorder" [] :=
  ⟨by with_unfolding_all decide, by decide,
    macf_kwargs_frame gOsc none 10 (some 2) oscSmooth [] wOsc
      (by with_unfolding_all decide) "polyorder" (by decide)⟩

/-- The code's fit ordinate construction (macf.py lines 256-260,
`np.concatenate(([0.0, bestlag], relpeaklags[relpeaklags > bestlag])) *
cadence`) equals the fit sample times as the spec words them. -/
theorem fity_eq_specFitSampleTimes (bl : ℕ) (pl : List ℕ) (c : ℚ) :
    ((0 : ℚ) :: ((bl : ℕ) : ℚ) ::
      ((pl.filter (fun l => decide (bl < l))).map
        (fun l => ((l : ℕ) : ℚ)))).map (fun v => v * c) =
      specFitSampleTimes bl pl c := by
  simp only [specFitSampleTimes, List.map_cons, List.map_map, zero_mul]
  rfl

/-- Claim C8: for every successful run, the reported refined-period data is
exactly the least-squares line fit over the spec's fit sample set — samples
`(0, 0)`, `(1, bestLag*cadence)`, then the retained maxima lags exceeding
the best lag (in increasing order) times cadence at consecutive integer
indices — with the fitted slope reported as the refined period and the
reported standard error being the square root of the first diagonal entry of
the coefficient covariance matrix. -/
theorem macf_refiner_matches_spec (g : GapFilled) (ml : Option ℕ) (npk : ℕ)
    (sacf : Option ℤ) (sf : List ℚ → List (String × ℤ) → List ℚ)
    (kw : List (String × ℤ)) (o : MacfOut)
    (h : macf_period_find g ml npk sacf sf kw = Except.ok o) :
    polyfitDeg1Cov
        ((List.range (specFitSampleTimes o.res.acfpeaks.bestlag
            o.res.acfpeaks.relpeaklags o.res.acfresults.cadence).length).map
          (fun i => ((i : ℕ) : ℚ)))
        (specFitSampleTimes o.res.acfpeaks.bestlag o.res.acfpeaks.relpeaklags
          o.res.acfresults.cadence) =
      Except.ok
        { slope := o.res.fitbestperiod,
          intercept := o.res.periodfitcoeffs.2,
          cov := o.res.periodfitcovar } ∧
      o.res.fitbestperiod = o.res.periodfitcoeffs.1 ∧
      o.res.fitperiodrms.radicand = o.res.periodfitcovar.c00 := by
  cases sacf with
  | none => simp [macf_period_find] at h
  | some s =>
    have hs := macf_ok_shape g ml npk s sf kw o h
    rw [← fity_eq_specFitSampleTimes]
    exact ⟨hs.2.2.2.1, hs.2.2.1, hs.2.2.2.2⟩

set_option maxRecDepth 100000 in
/-- Witness for `macf_refiner_matches_spec`: a concrete successful run. -/
theorem macf_refiner_matches_spec_witness :
    macf_period_find gOsc none 10 (some 2) oscSmooth [] = Except.ok wOsc ∧
      (polyfitDeg1Cov
          ((List.range (specFitSampleTimes wOsc.res.acfpeaks.bestlag
              wOsc.res.acfpeaks.relpeaklags
              wOsc.res.acfresults.cadence).length).map
            (fun i => ((i : ℕ) : ℚ)))
          (specFitSampleTimes wOsc.res.acfpeaks.bestlag
            wOsc.res.acfpeaks.relpeaklags wOsc.res.acfresults.cadence) =
        Except.ok
          { slope := wOsc.res.fitbestperiod,
            intercept := wOsc.res.periodfitcoeffs.2,
            cov := wOsc.res.periodfitcovar } ∧
        wOsc.res.fitbestperiod = wOsc.res.periodfitcoeffs.1 ∧
        wOsc.res.fitperiodrms.radicand = wOsc.res.periodfitcovar.c00) :=
  ⟨by with_unfolding_all decide,
    macf_refiner_matches_spec gOsc none 10 (some 2) oscSmooth [] wOsc
      (by with_unfolding_all decide)⟩

/-- The default estimator's output always has exactly as many entries as the
value sequence: the kept non-negative-lag half of the `2n-1`-entry full
correlation has `n` entries, independent of any requested lag count. -/
theorem _autocorr_func3_length (mags : List ℚ) (lag maglen : ℕ)
    (magmed magstd : ℚ) :
    (_autocorr_func3 mags lag maglen magmed magstd).length = mags.length := by
  simp only [_autocorr_func3, corrFull, List.length_drop, List.length_map,
    List.length_range]
  omega

/-- Claim C6 counterexample: for the 4-point series `gMono` and `L = 2` the
returned lag array has 2 entries — not the claimed `L + 1 = 3` — while the
ACF value sequence has 4 entries, so the two sequences do not even have equal
length. -/
theorem autocorr_len_cex :
    (autocorr_magseries gMono (some 2)).lags.length = 2 ∧
      (autocorr_magseries gMono (some 2)).acf.length = 4 ∧
      (autocorr_magseries gMono (some 2)).lags.length ≠
        (autocorr_magseries gMono (some 2)).acf.length := by
  exact ⟨by with_unfolding_all decide, by with_unfolding_all decide,
    by with_unfolding_all decide⟩

/-- Claim C6 (amended): with a positive `maxlags = L` the Correlator's lag
array has exactly `L` entries (lags `0 … L-1`), while the default estimator
ignores the lag array entirely and its ACF value sequence always has exactly
`n` entries (`n` the gap-filled value count); with `maxlags` absent the lag
array has `n` entries (the time count).  Lag and ACF sequences therefore
have equal length only when `maxlags` is absent or equals the series
length. -/
theorem autocorr_len_amended (g : GapFilled) :
    (∀ L : ℕ, 0 < L →
      (autocorr_magseries g (some L)).lags.length = L ∧
        (autocorr_magseries g (some L)).acf.length = g.imags.length) ∧
    ((autocorr_magseries g none).lags.length = g.itimes.length ∧
      (autocorr_magseries g none).acf.length = g.imags.length) := by
  constructor
  · intro L hL
    constructor
    · simp [autocorr_magseries, if_pos hL]
    · simp [autocorr_magseries, _autocorr_func3_length]
  · constructor
    · simp [autocorr_magseries]
    · simp [autocorr_magseries, _autocorr_func3_length]

/-- Witness for `autocorr_len_amended` at the concrete 4-point series. -/
theorem autocorr_len_amended_witness :
    (0 < 2 ∧
      ((autocorr_magseries gMono (some 2)).lags.length = 2 ∧
        (autocorr_magseries gMono (some 2)).acf.length = 4)) ∧
      ((autocorr_magseries gMono none).lags.length = 4 ∧
        (autocorr_magseries gMono none).acf.length = 4) :=
  ⟨⟨by decide,
      (by simpa [gMono] using (autocorr_len_amended gMono).1 2 (by decide))⟩,
    (by simpa [gMono] using (autocorr_len_amended gMono).2)⟩

/-- Claim C7 counterexample: a gap-filled series of length 1 together with a
requested maximum lag count of 5 (≥ the series length) produces a normal
result — the one-entry ACF `[1]` and five lag entries — instead of the
claimed `InsufficientDataError` / `InvalidLagRangeError` failures
(`autocorr_magseries` contains no such validation and raises nothing
here). -/
theorem autocorr_no_validation_cex :
    (autocorr_magseries ⟨[0], [2], 1⟩ (some 5)).acf = [1] ∧
      (autocorr_magseries ⟨[0], [2], 1⟩ (some 5)).lags = [0, 1, 2, 3, 4] := by
  exact ⟨by with_unfolding_all decide, by with_unfolding_all decide⟩

/-- Claim C7 (amended): the Correlator performs no length or lag-range
validation: any single-point gap-filled series (nonzero value) and any
requested `maxlags = L ≥ 1` — in particular `L` at or above the series
length — yield a normal result with `L` lag entries and the one-entry ACF
`[1]`, rather than any failure. -/
theorem autocorr_no_validation (t : List ℚ) (m c : ℚ) (L : ℕ)
    (hm : m ≠ 0) (hL : 1 ≤ L) :
    (autocorr_magseries ⟨t, [m], c⟩ (some L)).lags.length = L ∧
      (autocorr_magseries ⟨t, [m], c⟩ (some L)).acf = [1] := by
  have hmm : m * m ≠ 0 := mul_ne_zero hm hm
  constructor
  · simp [autocorr_magseries, if_pos (show 0 < L by omega)]
  · simp [autocorr_magseries, _autocorr_func3, corrFull, rlag, npmaxL,
      List.range_succ, List.range_zero, Function.comp, div_self hmm]

/-- Witness for `autocorr_no_validation` at the single-point series. -/
theorem autocorr_no_validation_witness :
    ((2 : ℚ) ≠ 0 ∧ 1 ≤ 5) ∧
      ((autocorr_magseries ⟨[0], [2], 1⟩ (some 5)).lags.length = 5 ∧
        (autocorr_magseries ⟨[0], [2], 1⟩ (some 5)).acf = [1]) :=
  ⟨⟨by norm_num, by decide⟩,
    autocorr_no_validation [0] 2 1 5 (by norm_num) (by decide)⟩

/-- Indices reported by the extremum search are valid indices into the
data array. -/
theorem argrelextrema_mem_lt (data : List ℚ) (cmp : ℚ → ℚ → Bool) (ord : ℕ) :
    ∀ i ∈ argrelextrema data cmp ord, i < data.length := by
  intro i hi
  exact List.mem_range.mp (List.mem_filter.mp hi).1

/-- Fancy indexing succeeds when every index is in range. -/
theorem npFancy_ok {α : Type} (arr : List α) (inds : List ℕ)
    (h : ∀ i ∈ inds, i < arr.length) :
    ∃ vs, npFancy arr inds = Except.ok vs := by
  induction inds with
  | nil => exact ⟨[], rfl⟩
  | cons i is ih =>
    obtain ⟨vs, hvs⟩ := ih (fun j hj => h j (List.mem_cons_of_mem _ hj))
    have hi : i < arr.length := h i (List.mem_cons_self _ _)
    refine ⟨arr[i] :: vs, ?_⟩
    simp [npFancy, npGet, List.getElem?_eq_getElem hi, hvs, bind, Except.bind]

/-- A successful scalar read determines the defaulted read at the same
index. -/
theorem npGet_ok_getD {α : Type} (arr : List α) (i : ℕ) (v d : α)
    (h : npGet arr i = Except.ok v) : arr.getD i d = v := by
  unfold npGet at h
  split at h
  · rw [Except.ok.injEq] at h
    subst h
    rename_i hget
    simp only [List.get?_eq_getElem?] at hget
    simp [List.getD_eq_getD_get?, hget]
  · exact Except.noConfusion h

/-- Claim C10 counterexample: an input on which the extremum search finds no
local maxima and `npeaks = 2`, yet `_get_acf_peakheights` raises instead of
returning normally: with an empty `lags` array the fancy read
`lags[mininds]` (macf.py line 151) hits an out-of-range minimum index. -/
theorem peakheights_no_maxima_cex :
    _get_acf_peakheights [] [3, 1, 2] 2 1 =
      Except.error "IndexError: index out of bounds" := by
  with_unfolding_all decide

/-- Claim C10 (amended): whenever the extremum search finds no local maxima,
`npeaks ≥ 2`, the search order is valid, and every found minimum index is a
valid index into the lags array (automatic when lags and ACF have equal
length, as in the pipeline), `_get_acf_peakheights` returns normally with
all relative peak heights equal to 0 and `bestlag = 0`,
`bestpeakheight = 0`, taken from the zero-initialised placeholder arrays via
the second-peak branch of the tie-break. -/
theorem peakheights_no_maxima (lags : List ℕ) (acf : List ℚ) (npeaks : ℕ)
    (si : ℤ) (hsi : 1 ≤ si)
    (hmax : argrelextrema acf (fun a b => decide (b < a)) si.toNat = [])
    (hnp : 2 ≤ npeaks)
    (hmin : ∀ i ∈ argrelextrema acf (fun a b => decide (a < b)) si.toNat,
      i < lags.length) :
    ∃ r, _get_acf_peakheights lags acf npeaks si = Except.ok r ∧
      r.relpeakheights = List.replicate npeaks 0 ∧
      r.bestlag = 0 ∧ r.bestpeakheight = 0 := by
  have hne : ¬ si < 1 := by omega
  obtain ⟨k, rfl⟩ : ∃ k, npeaks = k + 2 := ⟨npeaks - 2, by omega⟩
  obtain ⟨mv, hmv⟩ := npFancy_ok acf _
    (argrelextrema_mem_lt acf (fun a b => decide (a < b)) si.toNat)
  obtain ⟨lv, hlv⟩ := npFancy_ok lags _ hmin
  unfold _get_acf_peakheights
  rw [if_neg hne]
  simp only [hmax, bind, Except.bind, hmv, hlv,
    show npFancy acf ([] : List ℕ) = Except.ok [] from rfl,
    show npFancy lags ([] : List ℕ) = Except.ok [] from rfl,
    List.take_nil, List.map_nil, List.nil_append, Nat.sub_zero,
    show peakHeightsLoop acf (argrelextrema acf
      (fun a b => decide (a < b)) si.toNat) [] = Except.ok [] from rfl,
    List.replicate_succ, npGet, List.get?]
  simp [lt_irrefl, List.getD_cons_zero, List.getD_cons_succ,
    List.replicate_succ]

/-- Witness for `peakheights_no_maxima`: a strictly decreasing three-sample
ACF with matching lags. -/
theorem peakheights_no_maxima_witness :
    ((1 : ℤ) ≤ 1 ∧
      argrelextrema [3, 2, 1] (fun a b => decide (b < a)) (1 : ℤ).toNat = [] ∧
      2 ≤ 2 ∧
      (∀ i ∈ argrelextrema [3, 2, 1] (fun a b => decide (a < b))
        (1 : ℤ).toNat, i < ([0, 1, 2] : List ℕ).length)) ∧
    (∃ r, _get_acf_peakheights [0, 1, 2] [3, 2, 1] 2 1 = Except.ok r ∧
      r.relpeakheights = List.replicate 2 0 ∧
      r.bestlag = 0 ∧ r.bestpeakheight = 0) :=
  ⟨⟨by decide, by with_unfolding_all decide, by decide,
      by with_unfolding_all decide⟩,
    peakheights_no_maxima [0, 1, 2] [3, 2, 1] 2 1 (by decide)
      (by with_unfolding_all decide) (by decide)
      (by with_unfolding_all decide)⟩

/-- Claim C4: whenever `_get_acf_peakheights` succeeds and the search
collected at least two maxima (with bracketing minima, as success of the
loop requires), the best peak is chosen by comparing only the relative
heights of the first and second collected maxima in lag order: the first is
selected exactly when its relative height strictly exceeds the second's, and
otherwise the second is selected — regardless of any taller later peak. -/
theorem acf_peakheights_tiebreak (lags : List ℕ) (acf : List ℚ) (npeaks : ℕ)
    (si : ℤ) (r : PeakRes)
    (h : _get_acf_peakheights lags acf npeaks si = Except.ok r)
    (hpeaks : 2 ≤ r.maxinds.length) :
    (r.relpeakheights.getD 1 0 < r.relpeakheights.getD 0 0 →
      r.bestlag = r.relpeaklags.getD 0 0 ∧
        r.bestpeakheight = r.relpeakheights.getD 0 0 ∧
        r.bestpeakindex = r.peakindices.getD 0 0) ∧
    (¬ r.relpeakheights.getD 1 0 < r.relpeakheights.getD 0 0 →
      r.bestlag = r.relpeaklags.getD 1 0 ∧
        r.bestpeakheight = r.relpeakheights.getD 1 0 ∧
        r.bestpeakindex = r.peakindices.getD 1 0) := by
  unfold _get_acf_peakheights at h
  split at h
  · exact Except.noConfusion h
  · simp only [bind, Except.bind] at h
    split at h
    · exact Except.noConfusion h
    · split at h
      · exact Except.noConfusion h
      · split at h
        · exact Except.noConfusion h
        · split at h
          · exact Except.noConfusion h
          · split at h
            · exact Except.noConfusion h
            · split at h
              · exact Except.noConfusion h
              · split at h
                · exact Except.noConfusion h
                · split at h
                  · rw [Except.ok.injEq] at h
                    subst h
                    rename_i hts2 heqh x0 h0v heq0 x1 h1v heq1 hc
                    have e0 := npGet_ok_getD _ _ _ (0 : ℚ) heq0
                    have e1 := npGet_ok_getD _ _ _ (0 : ℚ) heq1
                    refine ⟨fun _ => ⟨rfl, e0.symm, rfl⟩, fun hn => ?_⟩
                    have hn2 : ¬ ((hts2 ++
                        List.replicate (npeaks - hts2.length) 0).getD 1 0 <
                        (hts2 ++
                          List.replicate (npeaks - hts2.length) 0).getD 0 0) :=
                      hn
                    rw [e0, e1] at hn2
                    exact absurd hc hn2
                  · rw [Except.ok.injEq] at h
                    subst h
                    rename_i hts2 heqh x0 h0v heq0 x1 h1v heq1 hc
                    have e0 := npGet_ok_getD _ _ _ (0 : ℚ) heq0
                    have e1 := npGet_ok_getD _ _ _ (0 : ℚ) heq1
                    refine ⟨fun hlt => ?_, fun _ => ⟨rfl, e1.symm, rfl⟩⟩
                    have hlt2 : (hts2 ++
                        List.replicate (npeaks - hts2.length) 0).getD 1 0 <
                        (hts2 ++
                          List.replicate (npeaks - hts2.length) 0).getD 0 0 :=
                      hlt
                    rw [e0, e1] at hlt2
                    exact absurd hlt2 hc

/-- The peak set computed on the oscillating nine-sample ACF used as the
tie-break witness: three maxima with relative heights 4, 5 and 8, so the
first does not exceed the second and the second is selected even though the
third is taller. -/
def wPk : PeakRes :=
  (_get_acf_peakheights (List.range 9) [9, 1, 5, 1, 6, 1, 9, 1, 2]
    10 1).toOption.getD default

set_option maxRecDepth 100000 in
/-- Witness for `acf_peakheights_tiebreak`: the concrete run behind `wPk`. -/
theorem acf_peakheights_tiebreak_witness :
    (_get_acf_peakheights (List.range 9) [9, 1, 5, 1, 6, 1, 9, 1, 2] 10 1 =
        Except.ok wPk ∧ 2 ≤ wPk.maxinds.length) ∧
    ((wPk.relpeakheights.getD 1 0 < wPk.relpeakheights.getD 0 0 →
        wPk.bestlag = wPk.relpeaklags.getD 0 0 ∧
          wPk.bestpeakheight = wPk.relpeakheights.getD 0 0 ∧
          wPk.bestpeakindex = wPk.peakindices.getD 0 0) ∧
      (¬ wPk.relpeakheights.getD 1 0 < wPk.relpeakheights.getD 0 0 →
        wPk.bestlag = wPk.relpeaklags.getD 1 0 ∧
          wPk.bestpeakheight = wPk.relpeakheights.getD 1 0 ∧
          wPk.bestpeakindex = wPk.peakindices.getD 1 0)) :=
  ⟨⟨by with_unfolding_all decide, by with_unfolding_all decide⟩,
    acf_peakheights_tiebreak (List.range 9) [9, 1, 5, 1, 6, 1, 9, 1, 2] 10 1
      wPk (by with_unfolding_all decide) (by with_unfolding_all decide)⟩

/-- Sums of squares are nonnegative. -/
theorem sumsq_nonneg (l : List ℚ) : 0 ≤ (l.map (fun v => v * v)).sum := by
  induction l with
  | nil => simp
  | cons x xs ih => simpa using add_nonneg (mul_self_nonneg x) ih

/-- Twice a zipped product sum is at most the sum of the two squares sums
(term-by-term arithmetic-geometric mean bound). -/
theorem zipmul_le (a : List ℚ) :
    ∀ b : List ℚ, 2 * (a.zipWith (· * ·) b).sum ≤
      (a.map (fun v => v * v)).sum + (b.map (fun v => v * v)).sum := by
  induction a with
  | nil => intro b; simpa using sumsq_nonneg b
  | cons x xs ih =>
    intro b
    cases b with
    | nil => simpa using sumsq_nonneg (x :: xs)
    | cons y ys =>
      have hih := ih ys
      simp only [List.zipWith_cons_cons, List.sum_cons, List.map_cons]
      nlinarith [sq_nonneg (x - y)]

/-- Dropping a prefix cannot increase a sum of squares. -/
theorem sumsq_drop_le (l : List ℚ) (k : ℕ) :
    ((l.drop k).map (fun v => v * v)).sum ≤ (l.map (fun v => v * v)).sum := by
  conv_rhs => rw [← List.take_append_drop k l]
  rw [List.map_append, List.sum_append]
  exact le_add_of_nonneg_left (sumsq_nonneg _)

/-- Zipping a list against itself multiplies each entry by itself. -/
theorem zipWith_mul_self (a : List ℚ) :
    a.zipWith (· * ·) a = a.map (fun v => v * v) := by
  induction a with
  | nil => rfl
  | cons x xs ih => simp only [List.zipWith_cons_cons, List.map_cons, ih]

/-- The zero-lag correlation sum is the sum of squares. -/
theorem rlag_zero (a : List ℚ) :
    rlag a 0 = (a.map (fun v => v * v)).sum := by
  simp [rlag, zipWith_mul_self]

/-- Every lagged correlation sum is bounded by the zero-lag one. -/
theorem rlag_le_rlag_zero (a : List ℚ) (k : ℕ) : rlag a k ≤ rlag a 0 := by
  have h1 := zipmul_le a (a.drop k)
  have h2 := sumsq_drop_le a k
  rw [rlag_zero]
  unfold rlag
  linarith

/-- The seed of a `max` fold bounds the fold from below. -/
theorem le_foldl_max (x : ℚ) (l : List ℚ) : x ≤ l.foldl max x := by
  induction l generalizing x with
  | nil => simp
  | cons y ys ih =>
    exact le_trans (le_max_left x y) (by simpa using ih (max x y))

/-- Every member of the list bounds a `max` fold from below. -/
theorem mem_le_foldl_max (l : List ℚ) (y : ℚ) (hy : y ∈ l) :
    ∀ x : ℚ, y ≤ l.foldl max x := by
  induction l with
  | nil => cases hy
  | cons z zs ih =>
    intro x
    simp only [List.foldl_cons]
    rcases List.mem_cons.mp hy with h | h
    · subst h
      exact le_trans (le_max_right x y) (le_foldl_max _ _)
    · exact ih h (max x z)

/-- An upper bound of the seed and all members bounds a `max` fold. -/
theorem foldl_max_le (b : ℚ) (l : List ℚ) :
    ∀ x : ℚ, x ≤ b → (∀ y ∈ l, y ≤ b) → l.foldl max x ≤ b := by
  induction l with
  | nil => intro x hx _; simpa using hx
  | cons z zs ih =>
    intro x hx hl
    simp only [List.foldl_cons]
    exact ih (max x z) (max_le hx (hl z (List.mem_cons_self _ _)))
      (fun y hy => hl y (List.mem_cons_of_mem _ hy))

/-- `np.max` of a list equals any member that bounds all the others. -/
theorem npmaxL_eq_of (l : List ℚ) (r : ℚ) (hmem : r ∈ l)
    (hub : ∀ v ∈ l, v ≤ r) : npmaxL l = r := by
  cases l with
  | nil => cases hmem
  | cons x xs =>
    apply le_antisymm
    · exact foldl_max_le r xs x (hub x (List.mem_cons_self _ _))
        (fun y hy => hub y (List.mem_cons_of_mem _ hy))
    · rcases List.mem_cons.mp hmem with h | h
      · subst h
        exact le_foldl_max _ _
      · exact mem_le_foldl_max xs r h x

/-- Every entry of the full double-sided correlation is at most the zero-lag
entry. -/
theorem corrFull_mem_le (a : List ℚ) : ∀ v ∈ corrFull a, v ≤ rlag a 0 := by
  intro v hv
  obtain ⟨j, hj, rfl⟩ := List.mem_map.mp hv
  exact rlag_le_rlag_zero a _

/-- The zero-lag sum is the central entry of the full correlation. -/
theorem rlag_zero_mem_corrFull (a : List ℚ) (hne : a ≠ []) :
    rlag a 0 ∈ corrFull a := by
  have hlen : 1 ≤ a.length := List.length_pos.mpr hne
  have hmem : a.length - 1 ∈ List.range (2 * a.length - 1) :=
    List.mem_range.mpr (by omega)
  have hmap := List.mem_map_of_mem
    (fun j => rlag a ((j - (a.length - 1)) + ((a.length - 1) - j))) hmem
  simpa [corrFull, Nat.sub_self] using hmap

/-- Claim C5: for every non-empty value sequence with nonzero zero-lag
correlation, the default convolution-based estimator's ACF is exactly `1` at
lag 0: every entry of the full double-sided correlation is bounded by the
central zero-lag entry, so dividing by the maximum divides the centre by
itself. -/
theorem autocorr_func3_lag0_one (mags : List ℚ) (lag maglen : ℕ)
    (magmed magstd : ℚ) (hne : mags ≠ []) (h0 : rlag mags 0 ≠ 0) :
    (_autocorr_func3 mags lag maglen magmed magstd).head? = some 1 := by
  have hn : 1 ≤ mags.length := List.length_pos.mpr hne
  have hmx : npmaxL (corrFull mags) = rlag mags 0 :=
    npmaxL_eq_of _ _ (rlag_zero_mem_corrFull mags hne) (corrFull_mem_le mags)
  unfold _autocorr_func3
  rw [List.head?_drop]
  have hlen2 : ((corrFull mags).map
      (fun x => x / npmaxL (corrFull mags))).length = 2 * mags.length - 1 := by
    simp [corrFull]
  rw [hlen2]
  have hidx : (2 * mags.length - 1) / 2 = mags.length - 1 := by omega
  rw [hidx]
  rw [List.getElem?_map]
  have hrange : (List.range (2 * mags.length - 1))[mags.length - 1]? =
      some (mags.length - 1) := List.getElem?_range (by omega)
  rw [show corrFull mags = (List.range (2 * mags.length - 1)).map
      (fun j => rlag mags ((j - (mags.length - 1)) +
        ((mags.length - 1) - j))) from rfl, List.getElem?_map, hrange]
  simp only [Option.map_some']
  rw [show ((mags.length - 1 - (mags.length - 1)) +
    (mags.length - 1 - (mags.length - 1))) = 0 by omega]
  rw [show (List.range (2 * mags.length - 1)).map
      (fun j => rlag mags ((j - (mags.length - 1)) +
        ((mags.length - 1) - j))) = corrFull mags from rfl, hmx,
    div_self h0]

/-- Witness for `autocorr_func3_lag0_one` at the two-sample sequence
`[1, 2]` (zero-lag correlation 5). -/
theorem autocorr_func3_lag0_one_witness :
    (([1, 2] : List ℚ) ≠ [] ∧ rlag [1, 2] 0 ≠ 0) ∧
      (_autocorr_func3 [1, 2] 0 2 0 0).head? = some 1 :=
  ⟨⟨by decide, by with_unfolding_all decide⟩,
    autocorr_func3_lag0_one [1, 2] 0 2 0 0 (by decide)
      (by with_unfolding_all decide)⟩

end Astrobase
